import Mathlib

/-!
Shallow embedding of the portfolio backend (accounts/models.py,
frontpanel/apis/controller.py) used to check the claims of the
natural-language specification.  Database tables are modelled as lists of
rows, Python integers as `Int`/`Nat`, Python floats that are only ever
compared or divided by powers of two as `ℚ` (those operations are exact on
IEEE doubles), dates and datetimes as explicit structures/microsecond
counts, and raising `ValidationError` as returning `Except.error`.
-/

namespace Portfolio

/-! ## Pagination (`PublicController.get_projects`)

`get_projects` hands the filtered queryset to
`django.core.paginator.Paginator(queryset, page_size)` and calls
`paginator.get_page(page)`.  The Django behaviour embedded here
(`allow_empty_first_page = True`, `orphans = 0`):

* `num_pages = ceil(max(1, count) / per_page)`;
* `get_page` clamps an out-of-range page number to the last page
  (a number below 1 raises `EmptyPage`, caught and mapped to `num_pages`;
  a number above `num_pages` likewise);
* `Page.has_next() = number < num_pages`, `Page.has_previous() = number > 1`,
  `Page.object_list = object_list[(number-1)*per_page : number*per_page]`.
-/

structure PaginatedResponse (α : Type) where
  items : List α
  total : Nat
  page : Int
  page_size : Nat
  total_pages : Nat
  has_next : Bool
  has_previous : Bool
  deriving Repr

/-- Django `Paginator.num_pages`: `ceil(max(1, count) / per_page)` (with the
default `orphans = 0` and `allow_empty_first_page = True`). -/
def numPages (count perPage : Nat) : Nat := (max 1 count + perPage - 1) / perPage

/-- Django `Paginator.get_page`: the effective page number actually served —
the requested number when it lies in `[1, num_pages]`, otherwise the last
page. -/
def effectivePage (requested : Int) (np : Nat) : Int :=
  if 1 ≤ requested ∧ requested ≤ (np : Int) then requested else (np : Int)

/-- Embedding of the pagination part of `PublicController.get_projects`
(frontpanel/apis/controller.py): `rows` is the already-filtered, ordered
queryset; the response echoes the *requested* page while `has_next` /
`has_previous` are computed from the effective (clamped) page object. -/
def getProjectsPage {α : Type} (rows : List α) (pageSize : Nat) (page : Int) :
    PaginatedResponse α :=
  let np := numPages rows.length pageSize
  let eff := effectivePage page np
  { items := (rows.drop ((eff - 1).toNat * pageSize)).take pageSize
    total := rows.length
    page := page
    page_size := pageSize
    total_pages := np
    has_next := decide (eff < (np : Int))
    has_previous := decide (1 < eff) }

/-- Ceiling division on naturals, the `ceil(total / page_size)` of the spec. -/
def ceilDiv (a b : Nat) : Nat := (a + b - 1) / b

/-! ## Project detail (`PublicController.get_project_detail`)

`get_object_or_404(Project, slug=project_slug, is_public=True)` performs a
`.get()` on the filtered queryset: exactly one match is returned, zero
matches raise `Http404`, several matches raise `MultipleObjectsReturned`
(which would surface as a server error, not a 404). -/

structure Project where
  title : String
  slug : String
  is_public : Bool
  deriving DecidableEq, Repr

inductive ProjectDetailResult where
  | ok (p : Project)
  | notFound
  | multipleReturned
  deriving DecidableEq, Repr

/-- Embedding of `PublicController.get_project_detail`. -/
def get_project_detail (db : List Project) (slug : String) : ProjectDetailResult :=
  match db.filter (fun p => decide (p.slug = slug) && p.is_public) with
  | [] => .notFound
  | [p] => .ok p
  | _ :: _ :: _ => .multipleReturned

/-! ## RotatingText (`RotatingText.clean` / `RotatingText.save`)

`delay_seconds` is a `FloatField`; it is only ever compared against the
dyadic constant `0.5`, which is exact in binary floating point, so `ℚ` is a
faithful model of the comparison. -/

structure RotatingText where
  text : String
  delay_seconds : ℚ
  typing_speed : Int
  deriving DecidableEq

/-- Python `str.strip()`: drop leading and trailing whitespace. -/
def pythonStrip (s : String) : String :=
  String.mk (((s.data.dropWhile Char.isWhitespace).reverse.dropWhile
    Char.isWhitespace).reverse)

/-- Embedding of `RotatingText.clean` (accounts/models.py): `not
self.text.strip()` is the emptiness test on the whitespace-stripped text. -/
def RotatingText.clean (r : RotatingText) : Except String Unit :=
  if pythonStrip r.text = "" then .error "Text cannot be empty"
  else if r.delay_seconds < 1/2 then .error "Delay should be at least 0.5 seconds"
  else if r.typing_speed < 50 then .error "Typing speed should be at least 50ms per character"
  else .ok ()

/-- Embedding of `RotatingText.save`: calls `clean` (propagating its
`ValidationError`) and then writes the record. -/
def RotatingText.save (r : RotatingText) : Except String RotatingText :=
  match r.clean with
  | .error e => .error e
  | .ok _ => .ok r

/-! ## Row stores

A table is a list of rows keyed by a primary key.  `dbUpsert` is the effect
of Django's `Model.save()` once the custom pre-save logic has run: it
updates the row with the same primary key when one exists and inserts the
row otherwise. -/

/-- UPDATE-or-INSERT of a row into a table, keyed by `getId`. -/
def dbUpsert {α : Type} (getId : α → Nat) (db : List α) (row : α) : List α :=
  if db.any (fun r => decide (getId r = getId row)) then
    db.map (fun r => if getId r = getId row then row else r)
  else
    db ++ [row]

/-! ## SiteSettings (`SiteSettings.save`, `SiteSettings.get_active_settings`) -/

structure SiteSettings where
  id : Nat
  site_name : String
  deriving DecidableEq, Repr

/-- Embedding of `SiteSettings.save` (accounts/models.py): first
`self.__class__.objects.exclude(id=self.id).delete()` removes every row
whose id differs from the one being saved, then `super().save()` writes the
row. -/
def SiteSettings.save (db : List SiteSettings) (s : SiteSettings) : List SiteSettings :=
  dbUpsert SiteSettings.id (db.filter (fun r => decide (r.id = s.id))) s

/-- Embedding of `SiteSettings.get_active_settings`:
`objects.get_or_create()` returns the existing row when there is exactly
one, creates a fresh row (`deflt`) when the table is empty, and raises
`MultipleObjectsReturned` when several rows exist. -/
def SiteSettings.get_active_settings (deflt : SiteSettings) (db : List SiteSettings) :
    Except String (SiteSettings × List SiteSettings) :=
  match db with
  | [] => .ok (deflt, [deflt])
  | [r] => .ok (r, [r])
  | _ :: _ :: _ => .error "MultipleObjectsReturned"

/-! ## Resume (`Resume.save`, counters, `file_size_human`)

`file_size` is a nullable `BigIntegerField`, but the Python attribute also
ends up holding a float after `file_size_human` runs its division loop, so
it is modelled as `Option ℚ` (division by `1024.0` is exact on doubles —
it only shifts the exponent).  `file` is the uploaded asset, modelled by
its size when present. -/

structure Resume where
  id : Nat
  is_primary : Bool
  is_public : Bool
  download_count : Int
  view_count : Int
  file : Option Int
  file_size : Option ℚ
  deriving DecidableEq

/-- First step of `Resume.save`: `if self.file: self.file_size =
self.file.size` — capture `file_size` from the stored asset when a file is
present. -/
def fileAdjust (r0 : Resume) : Resume :=
  match r0.file with
  | some sz => { r0 with file_size := some (sz : ℚ) }
  | none => r0

/-- Embedding of `Resume.save` (accounts/models.py): capture `file_size`
from the stored asset when a file is present, then — when the row being
saved is primary — `Resume.objects.filter(is_primary=True)
.exclude(id=self.id).update(is_primary=False)` clears the flag on every
other row, and finally `super().save()` writes the row. -/
def Resume.save (db : List Resume) (r0 : Resume) : List Resume :=
  let r := fileAdjust r0
  let db' := if r.is_primary then
      db.map (fun o => if o.is_primary && !(decide (o.id = r.id)) then
        { o with is_primary := false } else o)
    else db
  dbUpsert Resume.id db' r

/-- Embedding of `Resume.increment_download_count`: bump the in-memory
counter; the accompanying `self.save(update_fields=['download_count'])` is
applied by the caller via `Resume.save` (the instance was just loaded from
its row, so the full-row write stores the same values). -/
def Resume.increment_download_count (r : Resume) : Resume :=
  { r with download_count := r.download_count + 1 }

/-- Embedding of `Resume.increment_view_count`. -/
def Resume.increment_view_count (r : Resume) : Resume :=
  { r with view_count := r.view_count + 1 }

/-- Row predicate behind `Resume.objects.get(id=resume_id, is_public=True)`. -/
def resumePublicPred (rid : Nat) (r : Resume) : Bool :=
  decide (r.id = rid) && r.is_public

/-- Embedding of `PublicController.download_resume`
(frontpanel/apis/controller.py): look the resume up by id among public
rows (`DoesNotExist` becomes the 404 error), increment its download
counter and persist it, then stream the file. -/
def download_resume (db : List Resume) (rid : Nat) :
    Except String (List Resume) :=
  match db.find? (resumePublicPred rid) with
  | none => .error "Resume not found or not public"
  | some r => .ok (Resume.save db (Resume.increment_download_count r))

/-- State transition of one download request: a 404 leaves the table
untouched. -/
def downloadStep (rid : Nat) (db : List Resume) : List Resume :=
  match download_resume db rid with
  | .ok db' => db'
  | .error _ => db

/-- Floor of a rational, used for the digit split of `%.1f` formatting. -/
def ratFloor (q : ℚ) : Int := q.num.fdiv (q.den : Int)

/-- Decimal rendering of Python's `f"{x:.1f}"` (one fractional digit,
rounding modelled as round-half-up; the claims never inspect these
digits). -/
def fmt1 (q : ℚ) : String :=
  let t : Int := ratFloor (q * 10 + 1/2)
  toString (t / 10) ++ "." ++ toString (t % 10)

/-- Loop body of `Resume.file_size_human`: `for unit in ['bytes', 'KB',
'MB', 'GB']: if self.file_size < 1024.0: return ...; self.file_size /=
1024.0`, falling through to the TB line.  Returns the produced string
together with the value `self.file_size` holds afterwards. -/
def fileSizeHumanLoop : List String → ℚ → String × ℚ
  | [], sz => (fmt1 sz ++ " TB", sz)
  | u :: rest, sz =>
    if sz < 1024 then (fmt1 sz ++ " " ++ u, sz)
    else fileSizeHumanLoop rest (sz / 1024)

/-- Embedding of the `Resume.file_size_human` property: `if not
self.file_size: return "Unknown"` (None and 0 are both falsy), then the
unit loop above, which reassigns `self.file_size` on every division.
Returns the string together with the resume object after the property ran. -/
def Resume.file_size_human (r : Resume) : String × Resume :=
  match r.file_size with
  | none => ("Unknown", r)
  | some sz =>
    if sz = 0 then ("Unknown", r)
    else
      let res := fileSizeHumanLoop ["bytes", "KB", "MB", "GB"] sz
      (res.1, { r with file_size := some res.2 })

/-! ## Dates and `dateutil.relativedelta`

`datetime.date` values compare lexicographically on (year, month, day).
`Experience.duration` calls `relativedelta(end_date, start_date)`; on date
arguments with `start_date ≤ end_date` that constructor computes the raw
month difference, repeatedly decrements it while `end_date` is still
smaller than `start_date` shifted by that many months (month shifts clamp
the day to the target month's length, as `calendar.monthrange` does), and
finally splits it with `divmod(months, 12)`.  Python's floor division and
modulus by the positive constant 12 coincide with Lean's `Int` `/` and
`%`. -/

structure Date where
  year : Int
  month : Int
  day : Int
  deriving DecidableEq, Repr

/-- Python `date.__lt__`: lexicographic on (year, month, day). -/
def Date.ltb (a b : Date) : Bool :=
  decide (a.year < b.year) ||
    (decide (a.year = b.year) &&
      (decide (a.month < b.month) ||
        (decide (a.month = b.month) && decide (a.day < b.day))))

/-- Python `date.__le__`. -/
def Date.leb (a b : Date) : Bool := Date.ltb a b || decide (a = b)

/-- Gregorian leap-year rule (`calendar.isleap`). -/
def isLeapYear (y : Int) : Bool :=
  y % 4 = 0 && (decide (y % 100 ≠ 0) || decide (y % 400 = 0))

/-- Length of a month (`calendar.monthrange(y, m)[1]`). -/
def daysInMonth (y m : Int) : Int :=
  if m = 2 then (if isLeapYear y then 29 else 28)
  else if m = 4 ∨ m = 6 ∨ m = 9 ∨ m = 11 then 30
  else 31

/-- Well-formedness of a `datetime.date` value. -/
def Date.valid (d : Date) : Prop :=
  1 ≤ d.month ∧ d.month ≤ 12 ∧ 1 ≤ d.day ∧ d.day ≤ daysInMonth d.year d.month

instance (d : Date) : Decidable d.valid := by unfold Date.valid; infer_instance

/-- Linear month index `year * 12 + (month - 1)` of a date. -/
def monthIndex (d : Date) : Int := d.year * 12 + (d.month - 1)

/-- Shift a date by `k` months, clamping the day-of-month to the target
month's length — the effect of adding `relativedelta(months=k)` to a date. -/
def addMonths (d : Date) (k : Int) : Date :=
  let t := monthIndex d + k
  let y := t / 12
  let m := t % 12 + 1
  { year := y, month := m, day := min d.day (daysInMonth y m) }

/-- Decrement loop of the `relativedelta(dt1, dt2)` constructor for
`dt1 ≥ dt2`: while `dt1 < dt2 + months`, decrement `months`.  The loop is
run on fuel; `monthIndex dt1 - monthIndex dt2 + 1` steps always suffice. -/
def rdLoop : Nat → Int → Date → Date → Int
  | 0, m, _, _ => m
  | fuel+1, m, s, e =>
    if Date.ltb e (addMonths s m) then rdLoop fuel (m - 1) s e else m

/-- Years and months of `dateutil.relativedelta(e, s)` on dates with
`s ≤ e`: raw month difference, the decrement loop, then
`divmod(months, 12)`. -/
def relativedeltaYM (e s : Date) : Int × Int :=
  let m0 := monthIndex e - monthIndex s
  let months := rdLoop (m0.toNat + 1) m0 s e
  (months / 12, months % 12)

/-! ## Experience (`Experience.clean` / `duration` / `save`) -/

structure Experience where
  position : String
  company : String
  start_date : Date
  end_date : Option Date
  is_current : Bool
  deriving DecidableEq

/-- Embedding of `Experience.clean` (accounts/models.py): reject
`start_date > end_date` on non-current rows, and reject a current row that
carries an end date. -/
def Experience.clean (x : Experience) : Except String Unit :=
  match x.end_date with
  | some ed =>
    if !x.is_current && Date.ltb ed x.start_date then
      .error "Start date cannot be after end date."
    else if x.is_current then
      .error "Current positions should not have an end date."
    else .ok ()
  | none => .ok ()

/-- Embedding of the `Experience.duration` property, with `now` the value
of `timezone.now().date()`: pick the end date ("now" when current, else
the stored end date, else report "Present"), then format the
`relativedelta` years/months. -/
def Experience.duration (x : Experience) (now : Date) : String :=
  let ed? : Option Date := if x.is_current then some now else x.end_date
  match ed? with
  | none => "Present"
  | some ed =>
    let ym := relativedeltaYM ed x.start_date
    let years := ym.1
    let months := ym.2
    if 0 < years ∧ 0 < months then s!"{years} yr {months} mo"
    else if 0 < years then s!"{years} yr"
    else if 0 < months then s!"{months} mo"
    else "Less than a month"

/-- Embedding of `Experience.save`: run `clean` (its `ValidationError`
aborts the save), then null the end date of current rows, then write.
Returns the stored record. -/
def Experience.save (x : Experience) : Except String Experience :=
  match x.clean with
  | .error e => .error e
  | .ok _ => .ok (if x.is_current then { x with end_date := none } else x)

/-! ## DemoStat (`DemoStat.save`)

Datetimes are microsecond counts from an arbitrary epoch.  `timedelta`
normalises to `days/seconds/microseconds` with `0 ≤ seconds < 86400`, so
the `.seconds` attribute read by the code is the second count within the
last day, not the total. -/

/-- The `.seconds` attribute of a `timedelta` of `us` microseconds. -/
def tdSeconds (us : Int) : Int := us % 86400000000 / 1000000

structure DemoStat where
  session_id : String
  start_time : Int
  end_time : Option Int
  duration : Int
  deriving DecidableEq, Repr

/-- Embedding of `DemoStat.save` (accounts/models.py): when `end_time` is
set, store `(self.end_time - self.start_time).seconds` in `duration`. -/
def DemoStat.save (d : DemoStat) : DemoStat :=
  match d.end_time with
  | some e => { d with duration := tdSeconds (e - d.start_time) }
  | none => d

/-- Modelled from the spec's duration format rules ("years+months both
spelled out when both non-zero, otherwise whichever is non-zero, otherwise
a fixed fallback string"), for comparison with `Experience.duration`. -/
def durationFormatSpec (years months : Int) : String :=
  if years ≠ 0 ∧ months ≠ 0 then s!"{years} yr {months} mo"
  else if years ≠ 0 then s!"{years} yr"
  else if months ≠ 0 then s!"{months} mo"
  else "Less than a month"

/-! ## Theorems -/

theorem effectivePage_lt_iff (page : Int) (np : Nat) (hpage : 1 ≤ page) :
    (effectivePage page np < (np : Int)) ↔ page < (np : Int) := by
  unfold effectivePage
  split_ifs with h
  · exact Iff.rfl
  · rw [not_and_or] at h
    constructor
    · intro hc; exact absurd hc (lt_irrefl _)
    · intro hc; omega

/-- Claim C1 (corrected), counterexample: on an empty result set the code
returns `total_pages = 1` while `ceil(0 / 12) = 0`, and for a requested
`page = 0` (pages are not bounds-checked) the code clamps to the last page
and reports `has_next = false` even though `0 < total_pages`. -/
theorem get_projects_pagination_claim_false :
    (getProjectsPage ([] : List Nat) 12 1).total_pages ≠ ceilDiv 0 12 ∧
    ¬ ((getProjectsPage [1, 2, 3] 1 0).has_next = true ↔
        (0 : Int) < ((getProjectsPage [1, 2, 3] 1 0).total_pages : Int)) := by
  constructor
  · decide
  · decide

/-- Claim C1 (amended): for every projects list request with `page_size ≥ 1`
and requested `page ≥ 1`, the response satisfies `total_pages =
ceil(max(1, total) / page_size)` — which is `ceil(total / page_size)` for
every `total ≥ 1` but `1` on an empty result set — and `has_next` is true
iff `page < total_pages`. -/
theorem get_projects_pagination {α : Type} (rows : List α) (ps : Nat) (page : Int)
    (hps : 1 ≤ ps) (hpage : 1 ≤ page) :
    (getProjectsPage rows ps page).total_pages = ceilDiv (max 1 rows.length) ps ∧
    ((getProjectsPage rows ps page).has_next = true ↔
      page < ((getProjectsPage rows ps page).total_pages : Int)) := by
  refine ⟨rfl, ?_⟩
  have h := effectivePage_lt_iff page (numPages rows.length ps) hpage
  simpa [getProjectsPage, decide_eq_true_eq] using h

/-- Witness for claim C1's amended theorem at `rows = [0,1,2]`,
`page_size = 2`, `page = 1`. -/
theorem get_projects_pagination_witness :
    (getProjectsPage [0, 1, 2] 2 1).total_pages = ceilDiv (max 1 [0, 1, 2].length) 2 ∧
    ((getProjectsPage [0, 1, 2] 2 1).has_next = true ↔
      (1 : Int) < ((getProjectsPage [0, 1, 2] 2 1).total_pages : Int)) :=
  get_projects_pagination [0, 1, 2] 2 1 (by decide) (by decide)

/-- Claim C7 (corrected), counterexample: saving a current experience that
still carries an end date does not clear the date and store the row — the
`clean()` call at the top of `save()` raises first, so the save never
completes. -/
theorem experience_save_current_claim_false :
    Experience.save
        { position := "Dev", company := "Acme", start_date := ⟨2020, 1, 1⟩,
          end_date := some ⟨2021, 1, 1⟩, is_current := true } =
      .error "Current positions should not have an end date." := rfl

/-- Claim C7 (amended): a save with `is_current = true` raises a validation
error when `end_date` is non-null (validation runs before the clearing
step), and completes exactly when `end_date` is already null, in which
case the stored record has no end date; hence every stored current
position carries no end date. -/
theorem experience_save_current (x : Experience) (hcur : x.is_current = true) :
    (Experience.save x = match x.end_date with
      | some _ => .error "Current positions should not have an end date."
      | none => .ok { x with end_date := none }) ∧
    (∀ r, Experience.save x = .ok r → r.end_date = none) := by
  have h1 : Experience.save x = match x.end_date with
      | some _ => .error "Current positions should not have an end date."
      | none => .ok { x with end_date := none } := by
    rcases hx : x.end_date with _ | ed
    · simp [Experience.save, Experience.clean, hcur, hx]
    · simp [Experience.save, Experience.clean, hcur, hx]
  refine ⟨h1, ?_⟩
  intro r hr
  rw [h1] at hr
  rcases hx : x.end_date with _ | ed
  · rw [hx] at hr
    have : r = { x with end_date := none } := by
      injection hr with h
      exact h.symm
    rw [this]
  · rw [hx] at hr
    exact absurd hr (by simp)

/-- Witness for claim C7's amended theorem on a current experience with no
end date. -/
theorem experience_save_current_witness :
    (Experience.save
        { position := "p", company := "c", start_date := ⟨2020, 1, 1⟩,
          end_date := none, is_current := true } =
      .ok { position := "p", company := "c", start_date := ⟨2020, 1, 1⟩,
            end_date := none, is_current := true }) ∧
    (∀ r, Experience.save
        { position := "p", company := "c", start_date := ⟨2020, 1, 1⟩,
          end_date := none, is_current := true } =
          .ok r → r.end_date = none) :=
  experience_save_current _ rfl

/-- Claim C8 (code bug): for a demo session spanning one day and one second
the code stores `duration = 1`, because `(end_time - start_time).seconds`
is the `timedelta` second count within the last day (the intended total is
`86401`, as the field "Duration (seconds)" and the spec's `end_time −
start_time` describe). -/
theorem demo_stat_save_spans_a_day :
    (DemoStat.save
        { session_id := "s", start_time := 0, end_time := some 86401000000,
          duration := 0 }).duration = 1 ∧
    (1 : Int) ≠ 86401 := by
  constructor
  · decide
  · decide

/-- Claim C10 (corrected), counterexample: evaluating `file_size_human` on
a resume with `file_size = 2048` leaves the in-memory `file_size` holding
`2.0`, not the original `2048` — the loop's `self.file_size /= 1024.0`
mutates the field. -/
theorem resume_file_size_human_claim_false :
    (Resume.file_size_human
        { id := 1, is_primary := false, is_public := true,
          download_count := 0, view_count := 0, file := none,
          file_size := some 2048 }).2.file_size = some (2 : ℚ) ∧
    some (2 : ℚ) ≠ some (2048 : ℚ) := by
  have h0 : (2048 : ℚ) ≠ 0 := by norm_num
  have h1 : ¬ ((2048 : ℚ) < 1024) := by norm_num
  have h2 : (2048 : ℚ) / 1024 = 2 := by norm_num
  have h3 : (2 : ℚ) < 1024 := by norm_num
  constructor
  · simp [Resume.file_size_human, fileSizeHumanLoop, h0, h1, h2, h3]
  · simp

theorem fileSizeHumanLoop_bands (sz : ℚ) (hge : 1024 ≤ sz) :
    ((fileSizeHumanLoop ["bytes", "KB", "MB", "GB"] sz).2 =
      if sz < 1024 * 1024 then sz / 1024
      else if sz < 1024 * 1024 * 1024 then sz / (1024 * 1024)
      else if sz < 1024 * 1024 * 1024 * 1024 then sz / (1024 * 1024 * 1024)
      else sz / (1024 * 1024 * 1024 * 1024)) ∧
    (fileSizeHumanLoop ["bytes", "KB", "MB", "GB"] sz).2 < sz := by
  have hpos : (0 : ℚ) < sz := by linarith
  have e2 : sz / 1024 / 1024 = sz / (1024 * 1024) := by ring
  have e3 : sz / 1024 / 1024 / 1024 = sz / (1024 * 1024 * 1024) := by ring
  have e4 : sz / 1024 / 1024 / 1024 / 1024 =
      sz / (1024 * 1024 * 1024 * 1024) := by ring
  have h1 : ¬ (sz < 1024) := by linarith
  by_cases hb2 : sz < 1024 * 1024
  · have c2 : sz / 1024 < 1024 := by
      rw [div_lt_iff₀ (by norm_num : (0:ℚ) < 1024)]
      linarith
    constructor
    · rw [if_pos hb2]
      simp [fileSizeHumanLoop, h1, c2]
    · have hlt : sz / 1024 < sz := div_lt_self hpos (by norm_num)
      simpa [fileSizeHumanLoop, h1, c2] using hlt
  · have c2 : ¬ (sz / 1024 < 1024) := by
      rw [not_lt, le_div_iff₀ (by norm_num : (0:ℚ) < 1024)]
      linarith
    by_cases hb3 : sz < 1024 * 1024 * 1024
    · have c3 : sz / 1024 / 1024 < 1024 := by
        rw [e2, div_lt_iff₀ (by norm_num : (0:ℚ) < 1024 * 1024)]
        linarith
      constructor
      · rw [if_neg hb2, if_pos hb3, ← e2]
        simp [fileSizeHumanLoop, h1, c2, c3]
      · have hlt : sz / 1024 / 1024 < sz := by
          rw [e2]
          exact div_lt_self hpos (by norm_num)
        simpa [fileSizeHumanLoop, h1, c2, c3] using hlt
    · have c3 : ¬ (sz / 1024 / 1024 < 1024) := by
        rw [not_lt, e2, le_div_iff₀ (by norm_num : (0:ℚ) < 1024 * 1024)]
        linarith
      by_cases hb4 : sz < 1024 * 1024 * 1024 * 1024
      · have c4 : sz / 1024 / 1024 / 1024 < 1024 := by
          rw [e3, div_lt_iff₀ (by norm_num : (0:ℚ) < 1024 * 1024 * 1024)]
          linarith
        constructor
        · rw [if_neg hb2, if_neg hb3, if_pos hb4, ← e3]
          simp [fileSizeHumanLoop, h1, c2, c3, c4]
        · have hlt : sz / 1024 / 1024 / 1024 < sz := by
            rw [e3]
            exact div_lt_self hpos (by norm_num)
          simpa [fileSizeHumanLoop, h1, c2, c3, c4] using hlt
      · have c4 : ¬ (sz / 1024 / 1024 / 1024 < 1024) := by
          rw [not_lt, e3, le_div_iff₀ (by norm_num : (0:ℚ) < 1024 * 1024 * 1024)]
          linarith
        constructor
        · rw [if_neg hb2, if_neg hb3, if_neg hb4, ← e4]
          simp [fileSizeHumanLoop, h1, c2, c3, c4]
        · have hlt : sz / 1024 / 1024 / 1024 / 1024 < sz := by
            rw [e4]
            exact div_lt_self hpos (by norm_num)
          simpa [fileSizeHumanLoop, h1, c2, c3, c4] using hlt

theorem file_size_human_state_of_some (r : Resume) (sz : ℚ)
    (hsz : r.file_size = some sz) (h0 : sz ≠ 0) :
    (Resume.file_size_human r).2.file_size =
      some ((fileSizeHumanLoop ["bytes", "KB", "MB", "GB"] sz).2) := by
  simp [Resume.file_size_human, hsz, h0]

/-- Claim C10 (amended): evaluating `file_size_human` leaves the resume
unchanged when `file_size` is null or below 1024 (including the zero /
"Unknown" path), but for every `file_size ≥ 1024` it overwrites the
in-memory `file_size` as a side effect of the formatting loop — with
`file_size / 1024` in the KB band, `/ 1024²` in the MB band, `/ 1024³` in
the GB band and `/ 1024⁴` from the TB fallthrough on — always a value
strictly below the original; the property itself never writes the
database row. -/
theorem resume_file_size_human_state (r : Resume) :
    (r.file_size = none → (Resume.file_size_human r).2 = r) ∧
    (∀ sz : ℚ, r.file_size = some sz → sz < 1024 →
      (Resume.file_size_human r).2 = r) ∧
    (∀ sz : ℚ, r.file_size = some sz → 1024 ≤ sz →
      (Resume.file_size_human r).2.file_size ≠ some sz) ∧
    (∀ sz : ℚ, r.file_size = some sz → 1024 ≤ sz → sz < 1024 * 1024 →
      (Resume.file_size_human r).2.file_size = some (sz / 1024)) ∧
    (∀ sz : ℚ, r.file_size = some sz → 1024 * 1024 ≤ sz →
        sz < 1024 * 1024 * 1024 →
      (Resume.file_size_human r).2.file_size = some (sz / (1024 * 1024))) ∧
    (∀ sz : ℚ, r.file_size = some sz → 1024 * 1024 * 1024 ≤ sz →
        sz < 1024 * 1024 * 1024 * 1024 →
      (Resume.file_size_human r).2.file_size =
        some (sz / (1024 * 1024 * 1024))) ∧
    (∀ sz : ℚ, r.file_size = some sz → 1024 * 1024 * 1024 * 1024 ≤ sz →
      (Resume.file_size_human r).2.file_size =
        some (sz / (1024 * 1024 * 1024 * 1024))) := by
  have hne : ∀ sz : ℚ, 1024 ≤ sz → sz ≠ 0 := by
    intro sz h hc
    rw [hc] at h
    norm_num at h
  refine ⟨?_, ?_, ?_, ?_, ?_, ?_, ?_⟩
  · intro h
    simp [Resume.file_size_human, h]
  · intro sz hsz hlt
    by_cases h0 : sz = 0
    · simp [Resume.file_size_human, hsz, h0]
    · have hr : { r with file_size := some sz } = r := by
        cases r
        simp_all
      simp [Resume.file_size_human, fileSizeHumanLoop, hsz, h0, hlt, hr]
  · intro sz hsz hge
    rw [file_size_human_state_of_some r sz hsz (hne sz hge)]
    intro hc
    have hlt := (fileSizeHumanLoop_bands sz hge).2
    rw [Option.some_inj.mp hc] at hlt
    exact absurd hlt (lt_irrefl sz)
  · intro sz hsz hge hlt
    rw [file_size_human_state_of_some r sz hsz (hne sz hge),
      (fileSizeHumanLoop_bands sz hge).1, if_pos hlt]
  · intro sz hsz hge hlt
    have hge' : (1024 : ℚ) ≤ sz := by linarith
    rw [file_size_human_state_of_some r sz hsz (hne sz hge'),
      (fileSizeHumanLoop_bands sz hge').1, if_neg (by linarith), if_pos hlt]
  · intro sz hsz hge hlt
    have hge' : (1024 : ℚ) ≤ sz := by linarith
    rw [file_size_human_state_of_some r sz hsz (hne sz hge'),
      (fileSizeHumanLoop_bands sz hge').1, if_neg (by linarith),
      if_neg (by linarith), if_pos hlt]
  · intro sz hsz hge
    have hge' : (1024 : ℚ) ≤ sz := by linarith
    rw [file_size_human_state_of_some r sz hsz (hne sz hge'),
      (fileSizeHumanLoop_bands sz hge').1, if_neg (by linarith),
      if_neg (by linarith), if_neg (by linarith)]

/-- Witness for claim C10's amended theorem: a sub-KB size is untouched and
a 2 GiB size is overwritten with its GB-band quotient. -/
theorem resume_file_size_human_state_witness :
    (Resume.file_size_human
        { id := 1, is_primary := false, is_public := true,
          download_count := 0, view_count := 0, file := none,
          file_size := some 512 }).2 =
      { id := 1, is_primary := false, is_public := true,
        download_count := 0, view_count := 0, file := none,
        file_size := some 512 } ∧
    (Resume.file_size_human
        { id := 2, is_primary := false, is_public := true,
          download_count := 0, view_count := 0, file := none,
          file_size := some (2 * 1024 * 1024 * 1024) }).2.file_size =
      some (2 * 1024 * 1024 * 1024 / (1024 * 1024 * 1024)) :=
  ⟨(resume_file_size_human_state _).2.1 512 rfl (by norm_num),
   (resume_file_size_human_state _).2.2.2.2.2.1 (2 * 1024 * 1024 * 1024) rfl
     (by norm_num) (by norm_num)⟩

theorem length_filter_le_one {α β : Type} [DecidableEq β] (f : α → β) (p : α → Bool)
    (x : β) (himp : ∀ a, p a = true → f a = x) :
    ∀ l : List α, (l.map f).Nodup → (l.filter p).length ≤ 1 := by
  intro l
  induction l with
  | nil => intro _; simp
  | cons a t ih =>
    intro hnd
    rw [List.map_cons, List.nodup_cons] at hnd
    by_cases hpa : p a = true
    · have hfa : f a = x := himp a hpa
      have ht : t.filter p = [] := by
        rw [List.filter_eq_nil_iff]
        intro b hb hpb
        exact hnd.1 (List.mem_map.mpr ⟨b, hb, by rw [himp b hpb, hfa]⟩)
      simp [List.filter_cons, hpa, ht]
    · simp only [List.filter_cons, hpa, if_neg]
      simpa [hpa] using ih hnd.2

/-- Claim C5 (confirmed): with project slugs unique (the schema's `unique`
constraint on `slug`), the project-detail endpoint returns exactly the
public project whose slug matches, and not-found exactly when no public
project carries the slug. -/
theorem project_detail_by_slug (db : List Project) (slug : String)
    (hnodup : (db.map Project.slug).Nodup) :
    (∀ p, get_project_detail db slug = .ok p ↔
        (p ∈ db ∧ p.slug = slug ∧ p.is_public = true)) ∧
    (get_project_detail db slug = .notFound ↔
        ∀ p ∈ db, ¬ (p.slug = slug ∧ p.is_public = true)) := by
  have hmem : ∀ p : Project,
      (p ∈ db ∧ p.slug = slug ∧ p.is_public = true) ↔
      p ∈ db.filter (fun q => decide (q.slug = slug) && q.is_public) := by
    intro p
    rw [List.mem_filter]
    simp [and_assoc]
  have hle := length_filter_le_one Project.slug
    (fun q => decide (q.slug = slug) && q.is_public) slug
    (fun a ha => by
      simp only [Bool.and_eq_true, decide_eq_true_eq] at ha
      exact ha.1) db hnodup
  rcases hfil : db.filter (fun q => decide (q.slug = slug) && q.is_public)
    with _ | ⟨q, _ | ⟨q', t⟩⟩
  · constructor
    · intro p
      constructor
      · intro h
        exact absurd h (by simp [get_project_detail, hfil])
      · intro h
        have := (hmem p).mp h
        rw [hfil] at this
        exact absurd this (by simp)
    · constructor
      · intro _ p hp hcond
        have := (hmem p).mp ⟨hp, hcond.1, hcond.2⟩
        rw [hfil] at this
        exact absurd this (by simp)
      · intro _
        simp [get_project_detail, hfil]
  · have hq := (hmem q).mpr (by rw [hfil]; exact List.mem_singleton_self q)
    constructor
    · intro p
      constructor
      · intro h
        have hpq : q = p := by
          simpa [get_project_detail, hfil, ProjectDetailResult.ok.injEq] using h
        rw [← hpq]
        exact hq
      · intro h
        have := (hmem p).mp h
        rw [hfil] at this
        have : p = q := by simpa using this
        simp [get_project_detail, hfil, this]
    · constructor
      · intro h
        exact absurd h (by simp [get_project_detail, hfil])
      · intro h
        exact absurd ⟨hq.2.1, hq.2.2⟩ (h q hq.1)
  · rw [hfil] at hle
    simp at hle

/-- Witness for claim C5 at a two-row table: the public project with slug
"a" is returned. -/
theorem project_detail_by_slug_witness :
    get_project_detail [⟨"t", "a", true⟩, ⟨"u", "b", false⟩] "a" =
      .ok ⟨"t", "a", true⟩ :=
  ((project_detail_by_slug [⟨"t", "a", true⟩, ⟨"u", "b", false⟩] "a"
      (by decide)).1 ⟨"t", "a", true⟩).mpr (by decide)

theorem siteSettings_save_eq_singleton (db : List SiteSettings) (s : SiteSettings)
    (h : (db.map SiteSettings.id).Nodup) : SiteSettings.save db s = [s] := by
  have hle := length_filter_le_one SiteSettings.id
    (fun r => decide (r.id = s.id)) s.id
    (fun a ha => by simpa using ha) db h
  rcases hfil : db.filter (fun r => decide (r.id = s.id)) with _ | ⟨r, _ | ⟨r', t⟩⟩
  · simp [SiteSettings.save, dbUpsert, hfil]
  · have hr : r.id = s.id := by
      have := List.mem_filter.mp (hfil ▸ List.mem_singleton_self r)
      simpa using this.2
    simp [SiteSettings.save, dbUpsert, hfil, hr]
  · rw [hfil] at hle
    simp at hle

/-- Claim C4 (confirmed): starting from any table with distinct primary
keys, after one `SiteSettings.save` followed by any further sequence of
saves exactly one settings row exists, and the read path's get-or-create
returns that single row, leaving the table a singleton. -/
theorem site_settings_singleton (db : List SiteSettings) (s : SiteSettings)
    (rest : List SiteSettings) (deflt : SiteSettings)
    (h : (db.map SiteSettings.id).Nodup) :
    (rest.foldl SiteSettings.save (SiteSettings.save db s)).length = 1 ∧
    (∃ r, SiteSettings.get_active_settings deflt
        (rest.foldl SiteSettings.save (SiteSettings.save db s)) =
      .ok (r, rest.foldl SiteSettings.save (SiteSettings.save db s))) := by
  have key : ∀ (l : List SiteSettings) (t : SiteSettings),
      ∃ u, l.foldl SiteSettings.save [t] = [u] := by
    intro l
    induction l with
    | nil => exact fun t => ⟨t, rfl⟩
    | cons a l ih =>
      intro t
      have h1 : SiteSettings.save [t] a = [a] :=
        siteSettings_save_eq_singleton [t] a (by simp)
      simpa [List.foldl_cons, h1] using ih a
  rw [siteSettings_save_eq_singleton db s h]
  obtain ⟨u, hu⟩ := key rest s
  rw [hu]
  exact ⟨rfl, ⟨u, rfl⟩⟩

/-- Witness for claim C4: two saves onto a two-row table collapse it to one
row, and the read path returns it. -/
theorem site_settings_singleton_witness :
    (([⟨7, "y"⟩] : List SiteSettings).foldl SiteSettings.save
        (SiteSettings.save [⟨1, "a"⟩, ⟨2, "b"⟩] ⟨5, "x"⟩)).length = 1 ∧
    (∃ r, SiteSettings.get_active_settings ⟨0, "d"⟩
        (([⟨7, "y"⟩] : List SiteSettings).foldl SiteSettings.save
          (SiteSettings.save [⟨1, "a"⟩, ⟨2, "b"⟩] ⟨5, "x"⟩)) =
      .ok (r, ([⟨7, "y"⟩] : List SiteSettings).foldl SiteSettings.save
          (SiteSettings.save [⟨1, "a"⟩, ⟨2, "b"⟩] ⟨5, "x"⟩))) :=
  site_settings_singleton [⟨1, "a"⟩, ⟨2, "b"⟩] ⟨5, "x"⟩ [⟨7, "y"⟩] ⟨0, "d"⟩
    (by decide)

theorem mem_dbUpsert {α : Type} (getId : α → Nat) (db : List α) (row : α)
    {o : α} (ho : o ∈ dbUpsert getId db row) : o = row ∨ o ∈ db := by
  rw [dbUpsert] at ho
  split_ifs at ho with hany
  · obtain ⟨p, hp, hpe⟩ := List.mem_map.mp ho
    by_cases hid : getId p = getId row
    · rw [if_pos hid] at hpe
      exact Or.inl hpe.symm
    · rw [if_neg hid] at hpe
      exact Or.inr (hpe ▸ hp)
  · rcases List.mem_append.mp ho with h | h
    · exact Or.inr h
    · exact Or.inl (by simpa using h)

/-- Claim C3 (confirmed): after saving any resume with `is_primary = true`,
every other row (any row with a different id) has `is_primary = false`;
and no primary is guaranteed to exist — saving a non-primary resume into
an empty table yields a valid table with zero primary rows. -/
theorem resume_primary_exclusive (db : List Resume) (r : Resume)
    (hp : r.is_primary = true) :
    (∀ o ∈ Resume.save db r, o.id ≠ r.id → o.is_primary = false) ∧
    (∀ r0 : Resume, r0.is_primary = false →
      ∀ o ∈ Resume.save [] r0, o.is_primary = false) := by
  constructor
  · intro o ho hne
    have hadj_p : (fileAdjust r).is_primary = true := by
      cases hf : r.file <;> simp [fileAdjust, hf, hp]
    have hadj_id : (fileAdjust r).id = r.id := by
      cases hf : r.file <;> simp [fileAdjust, hf]
    rw [Resume.save] at ho
    simp only [hadj_p, if_true] at ho
    rcases mem_dbUpsert Resume.id _ _ ho with rfl | hmem
    · exact absurd hadj_id hne
    · obtain ⟨q, hq, hqe⟩ := List.mem_map.mp hmem
      by_cases hc : (q.is_primary && !(decide (q.id = (fileAdjust r).id))) = true
      · rw [if_pos hc] at hqe
        rw [← hqe]
      · rw [if_neg hc] at hqe
        rw [← hqe] at hne ⊢
        cases hqp : q.is_primary with
        | false => rfl
        | true =>
          exfalso
          apply hne
          have h2 : q.id = (fileAdjust r).id := by
            by_contra hnc
            exact hc (by simp [hqp, hnc])
          rw [h2, hadj_id]
  · intro r0 h0 o ho
    have hadj0 : (fileAdjust r0).is_primary = false := by
      cases hf : r0.file <;> simp [fileAdjust, hf, h0]
    rw [Resume.save] at ho
    simp only [List.map_nil, ite_self] at ho
    rcases mem_dbUpsert Resume.id _ _ ho with rfl | hmem
    · exact hadj0
    · exact absurd hmem (List.not_mem_nil o)

/-- Witness for claim C3: saving a new primary resume clears the flag on
the previously primary row. -/
theorem resume_primary_exclusive_witness :
    (⟨1, false, true, 0, 0, none, none⟩ : Resume).is_primary = false :=
  (resume_primary_exclusive [⟨1, true, true, 0, 0, none, none⟩]
      ⟨2, true, true, 0, 0, none, none⟩ rfl).1
    ⟨1, false, true, 0, 0, none, none⟩ (by decide) (by decide)

theorem fileAdjust_fields (r : Resume) :
    (fileAdjust r).id = r.id ∧ (fileAdjust r).is_public = r.is_public ∧
    (fileAdjust r).download_count = r.download_count ∧
    (fileAdjust r).view_count = r.view_count := by
  cases hf : r.file <;> simp [fileAdjust, hf]

theorem resumePublicPred_id {rid : Nat} {p : Resume}
    (h : resumePublicPred rid p = true) : p.id = rid := by
  simp only [resumePublicPred, Bool.and_eq_true, decide_eq_true_eq] at h
  exact h.1

theorem find?_map_replace (x : Resume) (rid : Nat)
    (hx : resumePublicPred rid x = true) :
    ∀ l : List Resume,
      (l.map (fun p => if p.id = x.id then x else p)).find? (resumePublicPred rid) =
        if l.any (fun p => decide (p.id = x.id)) then some x else none := by
  intro l
  induction l with
  | nil => rfl
  | cons a t ih =>
    by_cases ha : a.id = x.id
    · simp [List.map_cons, ha, List.find?_cons_of_pos, hx, List.any_cons]
    · have hpa : resumePublicPred rid a = false := by
        cases hv : resumePublicPred rid a
        · rfl
        · exact absurd ((resumePublicPred_id hv).trans (resumePublicPred_id hx).symm) ha
      simp [List.map_cons, ha, List.find?_cons_of_neg, hpa, List.any_cons, ih]

theorem find?_upsert (l : List Resume) (x : Resume) (rid : Nat)
    (hx : resumePublicPred rid x = true) :
    (dbUpsert Resume.id l x).find? (resumePublicPred rid) = some x := by
  rw [dbUpsert]
  split_ifs with hany
  · rw [find?_map_replace x rid hx l, if_pos hany]
  · have hnone : l.find? (resumePublicPred rid) = none := by
      rw [List.find?_eq_none]
      intro p hp hpred
      apply hany
      rw [List.any_eq_true]
      exact ⟨p, hp, by simp [resumePublicPred_id hpred, resumePublicPred_id hx]⟩
    rw [List.find?_append, hnone]
    simp [List.find?_cons_of_pos, hx]

theorem find?_save (db : List Resume) (r' : Resume) (rid : Nat)
    (hid : r'.id = rid) (hpub : r'.is_public = true) :
    (Resume.save db r').find? (resumePublicPred rid) = some (fileAdjust r') := by
  have hfa := fileAdjust_fields r'
  have hx : resumePublicPred rid (fileAdjust r') = true := by
    simp [resumePublicPred, hfa.1, hfa.2.1, hid, hpub]
  rw [Resume.save]
  exact find?_upsert _ _ rid hx

theorem downloadStep_count (db : List Resume) (rid : Nat) (r : Resume)
    (h : db.find? (resumePublicPred rid) = some r) :
    (downloadStep rid db).find? (resumePublicPred rid) =
      some (fileAdjust (Resume.increment_download_count r)) := by
  have hpred : resumePublicPred rid r = true := List.find?_some h
  have hid : (Resume.increment_download_count r).id = rid := by
    simpa [Resume.increment_download_count] using resumePublicPred_id hpred
  have hpub : (Resume.increment_download_count r).is_public = true := by
    simp only [resumePublicPred, Bool.and_eq_true] at hpred
    simpa [Resume.increment_download_count] using hpred.2
  rw [downloadStep, download_resume, h]
  exact find?_save db _ rid hid hpub

theorem downloadK_count (rid : Nat) :
    ∀ (K : Nat) (db : List Resume) (r : Resume),
      db.find? (resumePublicPred rid) = some r →
      ∃ r', ((downloadStep rid)^[K] db).find? (resumePublicPred rid) = some r' ∧
        r'.download_count = r.download_count + K := by
  intro K
  induction K with
  | zero =>
    intro db r h
    exact ⟨r, by simpa using h, by simp⟩
  | succ n ih =>
    intro db r h
    obtain ⟨r', h1, h2⟩ := ih (downloadStep rid db) _ (downloadStep_count db rid r h)
    refine ⟨r', by rw [Function.iterate_succ_apply]; exact h1, ?_⟩
    rw [h2]
    have hc : (fileAdjust (Resume.increment_download_count r)).download_count =
        r.download_count + 1 := by
      rw [(fileAdjust_fields _).2.2.1]
      simp [Resume.increment_download_count]
    rw [hc]
    push_cast
    ring

/-- Claim C6 (confirmed): K applications of the view-count increment leave
`view_count = initial + K`, K applications of the download-count increment
leave `download_count = initial + K`, and K download requests against a
public resume row leave that row's stored `download_count = initial + K` —
every call increments, with no deduplication of repeated clients. -/
theorem resume_counter_increment (K : Nat) (r : Resume) (db : List Resume)
    (rid : Nat) (hfind : db.find? (resumePublicPred rid) = some r) :
    ((Resume.increment_view_count)^[K] r).view_count = r.view_count + K ∧
    ((Resume.increment_download_count)^[K] r).download_count =
      r.download_count + K ∧
    (∃ r', ((downloadStep rid)^[K] db).find? (resumePublicPred rid) = some r' ∧
      r'.download_count = r.download_count + K) := by
  refine ⟨?_, ?_, downloadK_count rid K db r hfind⟩
  · induction K with
    | zero => simp
    | succ n ih =>
      rw [Function.iterate_succ_apply']
      simp only [Resume.increment_view_count, ih]
      push_cast
      ring
  · induction K with
    | zero => simp
    | succ n ih =>
      rw [Function.iterate_succ_apply']
      simp only [Resume.increment_download_count, ih]
      push_cast
      ring

/-- Witness for claim C6: two increments and two download requests on a
one-row table. -/
theorem resume_counter_increment_witness :
    ((Resume.increment_view_count)^[2]
        (⟨1, false, true, 0, 0, none, none⟩ : Resume)).view_count =
      (⟨1, false, true, 0, 0, none, none⟩ : Resume).view_count + (2 : Nat) ∧
    ((Resume.increment_download_count)^[2]
        (⟨1, false, true, 0, 0, none, none⟩ : Resume)).download_count =
      (⟨1, false, true, 0, 0, none, none⟩ : Resume).download_count + (2 : Nat) ∧
    (∃ r', ((downloadStep 1)^[2]
        [(⟨1, false, true, 0, 0, none, none⟩ : Resume)]).find?
          (resumePublicPred 1) = some r' ∧
      r'.download_count =
        (⟨1, false, true, 0, 0, none, none⟩ : Resume).download_count + (2 : Nat)) :=
  resume_counter_increment 2 ⟨1, false, true, 0, 0, none, none⟩
    [⟨1, false, true, 0, 0, none, none⟩] 1 rfl

theorem addMonths_zero (d : Date) (hd : d.valid) : addMonths d 0 = d := by
  rcases d with ⟨Y, M, D⟩
  simp only [Date.valid] at hd
  have hy : (Y * 12 + (M - 1) + 0) / 12 = Y := by omega
  have hm : (Y * 12 + (M - 1) + 0) % 12 + 1 = M := by omega
  simp only [addMonths, monthIndex]
  rw [hy, hm]
  have hmin : min D (daysInMonth Y M) = D := by omega
  rw [hmin]

theorem leb_ltb_false {a b : Date} (h : Date.leb a b = true) :
    Date.ltb b a = false := by
  rcases a with ⟨y1, m1, d1⟩
  rcases b with ⟨y2, m2, d2⟩
  simp only [Date.leb, Date.ltb, Bool.or_eq_true, Bool.and_eq_true,
    decide_eq_true_eq, Date.mk.injEq] at h
  rw [Bool.eq_false_iff]
  simp only [ne_eq, Date.ltb, Bool.or_eq_true, Bool.and_eq_true,
    decide_eq_true_eq]
  omega

theorem monthIndex_le {a b : Date} (ha : a.valid) (hb : b.valid)
    (h : Date.leb a b = true) : monthIndex a ≤ monthIndex b := by
  rcases a with ⟨y1, m1, d1⟩
  rcases b with ⟨y2, m2, d2⟩
  simp only [Date.valid] at ha hb
  simp only [Date.leb, Date.ltb, Bool.or_eq_true, Bool.and_eq_true,
    decide_eq_true_eq, Date.mk.injEq] at h
  simp only [monthIndex]
  omega

theorem rdLoop_nonneg (s e : Date) (hstop : Date.ltb e (addMonths s 0) = false) :
    ∀ (fuel : Nat) (m : Int), 0 ≤ m → 0 ≤ rdLoop fuel m s e := by
  intro fuel
  induction fuel with
  | zero =>
    intro m hm
    simpa [rdLoop] using hm
  | succ n ih =>
    intro m hm
    rw [rdLoop]
    split_ifs with hlt
    · rcases eq_or_lt_of_le hm with heq | hpos
      · rw [← heq] at hlt
        rw [hstop] at hlt
        exact absurd hlt (by simp)
      · exact ih (m - 1) (by omega)
    · exact hm

theorem relativedeltaYM_nonneg (e s : Date) (hs : s.valid) (he : e.valid)
    (hle : Date.leb s e = true) :
    0 ≤ (relativedeltaYM e s).1 ∧ 0 ≤ (relativedeltaYM e s).2 := by
  have hstop : Date.ltb e (addMonths s 0) = false := by
    rw [addMonths_zero s hs]
    exact leb_ltb_false hle
  have hmonths := rdLoop_nonneg s e hstop
    ((monthIndex e - monthIndex s).toNat + 1) (monthIndex e - monthIndex s)
    (by have := monthIndex_le hs he hle; omega)
  constructor
  · simp only [relativedeltaYM]
    exact Int.ediv_nonneg hmonths (by norm_num)
  · simp only [relativedeltaYM]
    exact Int.emod_nonneg _ (by norm_num)

end Portfolio
